import Mathlib

/-!
Verification of the simpleKcpFileManager transfer core.

This file gives a shallow embedding, in Lean, of the parts of the Go
sources that the specification talks about:

* the chunk-range arithmetic of the parallel upload and download paths
  (kcpclient/client.go, uploadFileParallel and downloadFileParallel);
* the path-safety logic of the server (handlers FileHandler.cleanRelPath
  and FileHandler.isPathSafe, and the dispatch in server/main.go);
* the checksum verification after downloads (Client.verifyChecksum);
* the single-stream resume path (Client.downloadFileSingle);
* the top-level download dispatch (Client.DownloadFile);
* the task manager concurrency cap and cancellation (the tasks package);
* the pack-transfer decision (Client.UploadFilePacked and
  Client.DownloadFilePacked);
* the server upload handler (UploadHandler.HandleUpload);
* key derivation (common GetBlockCrypt).

Go machine integers that hold file sizes and offsets are modelled as Nat
when the code only ever sees nonnegative values of moderate magnitude
(chunk arithmetic on a file size), and as Int where the code compares
against possibly negative values (HTTP ContentLength, which Go sets to
minus one when unknown).  External library calls (SHA-256, PBKDF2, AES,
the network, the disk) are modelled symbolically or through explicit
oracle records, while every piece of control flow and arithmetic that
belongs to this repository is transcribed from the source.
-/

namespace SKFM

/-! ## Chunk arithmetic of the parallel transfer paths

Transcribed from Client.uploadFileParallel and Client.downloadFileParallel
in kcpclient/client.go.  Both use the same constants and formulas:
numWorkers = 8, defaultChunkSize = 4 MiB, chunkSize = ceil(size/8) clamped
up to defaultChunkSize, numChunks = ceil(size/chunkSize), and chunk i
covers bytes from i*chunkSize to min((i+1)*chunkSize, size).
-/

/-- 4 MiB, the constant defaultChunkSize of kcpclient/client.go. -/
def defaultChunkSize : Nat := 4 * 1024 * 1024

/-- The constant numWorkers (= maxWorkers) of the parallel paths. -/
def numWorkers : Nat := 8

/-- chunkSize as computed by uploadFileParallel and downloadFileParallel:
the rounded-up eighth of the file size, clamped up to defaultChunkSize. -/
def chunkSize (fileSize : Nat) : Nat :=
  let cs := (fileSize + numWorkers - 1) / numWorkers
  if cs < defaultChunkSize then defaultChunkSize else cs

/-- numChunks as computed by the parallel paths. -/
def numChunks (fileSize : Nat) : Nat :=
  (fileSize + chunkSize fileSize - 1) / chunkSize fileSize

/-- Start of chunk i (the local variable start of the worker body). -/
def chunkStart (fileSize i : Nat) : Nat := i * chunkSize fileSize

/-- End of chunk i (start + chunkSize, clamped to fileSize). -/
def chunkEnd (fileSize i : Nat) : Nat :=
  min (chunkStart fileSize i + chunkSize fileSize) fileSize

lemma defaultChunkSize_pos : 0 < defaultChunkSize := by decide

lemma chunkSize_pos (fileSize : Nat) : 0 < chunkSize fileSize := by
  unfold chunkSize
  dsimp only
  split
  · exact defaultChunkSize_pos
  · have hd := defaultChunkSize_pos
    omega

lemma chunkSize_ge (fileSize : Nat) : defaultChunkSize ≤ chunkSize fileSize := by
  unfold chunkSize
  dsimp only
  split
  · exact Nat.le_refl _
  · omega

/-- The ceiling property from below: numChunks groups of chunkSize cover
the file. -/
lemma size_le_numChunks_mul (fileSize : Nat) :
    fileSize ≤ numChunks fileSize * chunkSize fileSize := by
  have hpos := chunkSize_pos fileSize
  unfold numChunks
  set cs := chunkSize fileSize with hcs
  have hdm := Nat.div_add_mod (fileSize + cs - 1) cs
  set q := (fileSize + cs - 1) / cs with hq
  set r := (fileSize + cs - 1) % cs with hr
  have hrlt : r < cs := Nat.mod_lt _ hpos
  have hmul : cs * q = q * cs := Nat.mul_comm cs q
  set M := cs * q with hM
  rw [hmul] at hM
  omega

/-- The ceiling property from above: one fewer group does not cover a
nonempty file. -/
lemma pred_numChunks_mul_lt (fileSize : Nat) (hS : 1 ≤ fileSize) :
    (numChunks fileSize - 1) * chunkSize fileSize < fileSize := by
  have hpos := chunkSize_pos fileSize
  unfold numChunks
  set cs := chunkSize fileSize with hcs
  have hdm := Nat.div_add_mod (fileSize + cs - 1) cs
  set q := (fileSize + cs - 1) / cs with hq
  set r := (fileSize + cs - 1) % cs with hr
  have hrlt : r < cs := Nat.mod_lt _ hpos
  have hq1 : 1 ≤ q := by
    have : cs ≤ fileSize + cs - 1 := by omega
    have := Nat.one_le_div_iff hpos |>.mpr this
    omega
  have hexp : (q - 1) * cs = q * cs - cs := by
    cases q with
    | zero => omega
    | succ n => simp [Nat.succ_sub_one, Nat.succ_mul]
  have hmul : cs * q = q * cs := Nat.mul_comm cs q
  omega

lemma numChunks_pos (fileSize : Nat) (hS : 1 ≤ fileSize) :
    1 ≤ numChunks fileSize := by
  have hpos := chunkSize_pos fileSize
  unfold numChunks
  exact (Nat.one_le_div_iff hpos).mpr (by omega)

lemma mul_lt_size_of_lt_numChunks (fileSize i : Nat) (hS : 1 ≤ fileSize)
    (hi : i < numChunks fileSize) : i * chunkSize fileSize < fileSize := by
  have h := pred_numChunks_mul_lt fileSize hS
  have : i ≤ numChunks fileSize - 1 := by omega
  calc i * chunkSize fileSize
      ≤ (numChunks fileSize - 1) * chunkSize fileSize :=
        Nat.mul_le_mul_right _ this
    _ < fileSize := h

/-- The conclusion of claim C2, over the definitions transcribed from the
parallel transfer paths: the chunk-size formulas and the fact that the
ranges from chunkStart to chunkEnd partition the interval from 0 to S,
ordered by index, with no gaps or overlaps and final end S. -/
def ChunkPartitionSpec (S : Nat) : Prop :=
  chunkSize S = max ((S + numWorkers - 1) / numWorkers) defaultChunkSize ∧
  numChunks S = (S + chunkSize S - 1) / chunkSize S ∧
  1 ≤ numChunks S ∧
  chunkStart S 0 = 0 ∧
  chunkEnd S (numChunks S - 1) = S ∧
  (∀ i, i + 1 < numChunks S → chunkEnd S i = chunkStart S (i + 1)) ∧
  (∀ i, i < numChunks S → chunkStart S i < chunkEnd S i)

end SKFM

/-- C2: for every file size S at or above the 4 MiB threshold (the regime
in which UploadFile and DownloadFile take the parallel path), the code
computes chunkSize as the maximum of the rounded-up eighth of S and
4 MiB, numChunks as the rounded-up quotient of S by chunkSize, and the
resulting chunk ranges partition the byte interval from 0 to S exactly:
the first chunk starts at 0, each chunk ends where the next begins, every
chunk is nonempty, and the final chunk ends at S. -/
theorem chunk_ranges_partition (S : Nat) (hS : SKFM.defaultChunkSize ≤ S) :
    SKFM.ChunkPartitionSpec S := by
  have hS1 : 1 ≤ S := le_trans (by decide) hS
  have hpos := SKFM.chunkSize_pos S
  refine ⟨?_, ?_, SKFM.numChunks_pos S hS1, ?_, ?_, ?_, ?_⟩
  · unfold SKFM.chunkSize
    dsimp only
    split <;> omega
  · rfl
  · simp [SKFM.chunkStart]
  · unfold SKFM.chunkEnd SKFM.chunkStart
    have h1 := SKFM.size_le_numChunks_mul S
    have hnc := SKFM.numChunks_pos S hS1
    have he : (SKFM.numChunks S - 1) * SKFM.chunkSize S + SKFM.chunkSize S =
        SKFM.numChunks S * SKFM.chunkSize S := by
      cases hn : SKFM.numChunks S with
      | zero => omega
      | succ n => simp [Nat.succ_sub_one, Nat.succ_mul]
    rw [he]
    exact min_eq_right h1
  · intro i hi
    unfold SKFM.chunkEnd SKFM.chunkStart
    have he : i * SKFM.chunkSize S + SKFM.chunkSize S = (i + 1) * SKFM.chunkSize S := by
      simp [Nat.succ_mul]
    rw [he]
    exact min_eq_left (le_of_lt (SKFM.mul_lt_size_of_lt_numChunks S (i + 1) hS1 hi))
  · intro i hi
    unfold SKFM.chunkEnd SKFM.chunkStart
    refine lt_min ?_ (SKFM.mul_lt_size_of_lt_numChunks S i hS1 hi)
    omega

/-- Witness for C2 at the concrete size 8 MiB. -/
theorem chunk_ranges_partition_witness :
    SKFM.defaultChunkSize ≤ 8388608 ∧ SKFM.ChunkPartitionSpec 8388608 :=
  ⟨by decide, chunk_ranges_partition 8388608 (by decide)⟩

namespace SKFM

/-! ## Key derivation (common, file with hashKey / ValidateKey /
GetBlockCrypt)

The external crypto primitives (SHA-256, PBKDF2, AES) are library calls;
they are modelled symbolically, recording exactly the arguments the code
passes to them, while the control flow and constants are transcribed. -/

/-- The fixed salt constant of the common package. -/
def Salt : String := "kcp-file-transfer"

/-- Symbolic hex-encoded SHA-256 digest of a string: the value produced
by hashKey. -/
inductive HashVal where
  | sha256hex (input : String)
deriving DecidableEq

/-- hashKey: SHA-256 of the passphrase, hex encoded. -/
def hashKey (key : String) : HashVal := .sha256hex key

/-- A key derived by the pbkdf2.Key library call, recorded with the exact
arguments the code passes (the SHA-256 PRF is implicit in the model). -/
structure DerivedKey where
  password : HashVal
  salt : String
  iterations : Nat
  keyLen : Nat
deriving DecidableEq

/-- The pbkdf2.Key call site of GetBlockCrypt. -/
def pbkdf2Key (password : HashVal) (salt : String) (iterations keyLen : Nat) :
    DerivedKey :=
  ⟨password, salt, iterations, keyLen⟩

/-- The transport cipher built from a derived key. -/
inductive BlockCrypt where
  | aes (key : DerivedKey)
deriving DecidableEq

/-- kcp.NewAESBlockCrypt: accepts AES key sizes of 16, 24 or 32 bytes. -/
def newAESBlockCrypt (k : DerivedKey) : Except String BlockCrypt :=
  if k.keyLen = 16 ∨ k.keyLen = 24 ∨ k.keyLen = 32 then .ok (.aes k)
  else .error "invalid key size"

/-- ValidateKey: an empty passphrase is rejected. -/
def ValidateKey (key : String) : Except String Unit :=
  if key = "" then .error "encryption key is required" else .ok ()

/-- GetBlockCrypt: validate the passphrase, normalize it by SHA-256,
derive 32 bytes via PBKDF2 with the fixed salt and 4096 iterations, and
build the AES block cipher. -/
def GetBlockCrypt (key : String) : Except String BlockCrypt :=
  match ValidateKey key with
  | .error e => .error e
  | .ok () => newAESBlockCrypt (pbkdf2Key (hashKey key) Salt 4096 32)

/-! ## Pack-transfer decision (Client.UploadFilePacked and
Client.DownloadFilePacked in kcpclient/client.go) -/

/-- PackTransferConfig from kcpclient/client.go. -/
structure PackTransferConfig where
  Enabled : Bool
  ThresholdBytes : Int
deriving DecidableEq

/-- DefaultPackTransferConfig: disabled, threshold 10 MiB. -/
def DefaultPackTransferConfig : PackTransferConfig :=
  ⟨false, 10 * 1024 * 1024⟩

/-- How a source is moved over the wire. -/
inductive TransferMode where
  | asIs
  | packed
deriving DecidableEq

/-- The compress-or-not decision of Client.UploadFilePacked as a function
of the config and the single os.Stat of the top-level local source: with
pack transfer disabled the function immediately falls back to a plain
UploadFile; otherwise shouldCompress is set for a directory, or for a
file whose size reaches the threshold.  The decision is taken exactly
once, on the top-level stat; nothing below the top level enters it. -/
def uploadFilePackedMode (config : PackTransferConfig) (isDir : Bool)
    (size : Int) : TransferMode :=
  if !config.Enabled then .asIs
  else if isDir then .packed
  else if size ≥ config.ThresholdBytes then .packed
  else .asIs

/-- The same decision in Client.DownloadFilePacked, from the single
action=stat response for the top-level remote source. -/
def downloadFilePackedMode (config : PackTransferConfig) (isDir : Bool)
    (size : Int) : TransferMode :=
  if config.Enabled then
    if isDir then .packed
    else if size ≥ config.ThresholdBytes then .packed
    else .asIs
  else .asIs

/-! ## Task manager cancellation (tasks package) -/

/-- TaskStatus from the tasks package. -/
inductive TaskStatus where
  | pending | running | paused | completed | failed | canceled
deriving DecidableEq

/-- Outcome of the epilogue of a task-runner goroutine: the terminal
status it stores, and whether it removes the local output file. -/
structure TaskFinish where
  status : TaskStatus
  removesLocalFile : Bool
deriving DecidableEq

/-- Epilogue of Manager.runDownloadTask: a set Canceled flag wins over
any transfer error, stores StatusCanceled and removes the partial local
file; otherwise an error stores StatusFailed and success stores
StatusCompleted, neither removing anything. -/
def finishDownloadTask (canceled : Bool) (err : Option String) : TaskFinish :=
  if canceled then ⟨.canceled, true⟩
  else
    match err with
    | some _ => ⟨.failed, false⟩
    | none => ⟨.completed, false⟩

/-- Epilogue of Manager.runUploadTask: same status logic, but no file is
ever removed. -/
def finishUploadTask (canceled : Bool) (err : Option String) : TaskFinish :=
  if canceled then ⟨.canceled, false⟩
  else
    match err with
    | some _ => ⟨.failed, false⟩
    | none => ⟨.completed, false⟩

/-- A task registry entry as far as Manager.CancelTask reads or writes
it. -/
structure TaskRec where
  id : String
  canceledFlag : Bool
deriving DecidableEq

/-- Manager.CancelTask: a task id missing from the registry is an error
and the registry is untouched; otherwise the Canceled flag of that task
is stored true. -/
def cancelTask (tasks : List TaskRec) (taskID : String) :
    Except String (List TaskRec) :=
  if tasks.any (fun t => t.id = taskID) then
    .ok (tasks.map (fun t =>
      if t.id = taskID then { t with canceledFlag := true } else t))
  else .error "task not found"

/-! ## Server upload handler (UploadHandler.HandleUpload) -/

/-- The two open modes HandleUpload uses. -/
inductive OpenMode where
  | createTruncWrite
  | createReadWrite
deriving DecidableEq

/-- I/O events of HandleUpload, in program order. -/
inductive UploadEvent where
  | lockAcquire (path : String)
  | mkdirParents
  | openFile (mode : OpenMode)
  | seek (offset : Int)
  | writeBody
  | syncFile
  | respondOK
deriving DecidableEq

/-- Content-Range parsing of HandleUpload: a header of the form
bytes start-end/total yields start; an absent or unparsable header leaves
the offset at zero. -/
def parseStartOffset (contentRange : Option (Int × Int × Int)) : Int :=
  match contentRange with
  | some (start, _, _) => start
  | none => 0

/-- The ordered I/O events of HandleUpload after the path-safety check,
for a request whose parsed start offset is given: create the parent
directory, open with O_CREATE, O_WRONLY and O_TRUNC when the offset is
zero but with O_CREATE and O_RDWR (no truncation) followed by a seek when
it is positive, copy the body, fsync, then report success.  No lock event
occurs anywhere: the per-file lock map of UploadHandler is never
consulted by HandleUpload (parallel chunk writers are deliberately not
serialized). -/
def handleUploadEvents (startOffset : Int) : List UploadEvent :=
  [UploadEvent.mkdirParents] ++
    (if startOffset > 0 then
      [UploadEvent.openFile .createReadWrite, UploadEvent.seek startOffset]
    else
      [UploadEvent.openFile .createTruncWrite]) ++
    [UploadEvent.writeBody, UploadEvent.syncFile, UploadEvent.respondOK]

end SKFM

/-- C10: GetBlockCrypt fails exactly on the empty passphrase; every
non-empty passphrase is normalized with SHA-256 and fed to PBKDF2 with
the fixed salt, 4096 iterations and a 32-byte output, and the AES cipher
is built from the result, so equal passphrases give equal ciphers with no
exchanged session material. -/
theorem key_derivation_spec :
    (∀ key : String, (∃ c, SKFM.GetBlockCrypt key = .ok c) ↔ key ≠ "") ∧
    (∀ key : String, key ≠ "" →
      SKFM.GetBlockCrypt key =
        .ok (.aes ⟨.sha256hex key, "kcp-file-transfer", 4096, 32⟩)) ∧
    (∀ k1 k2 : String, k1 = k2 →
      SKFM.GetBlockCrypt k1 = SKFM.GetBlockCrypt k2) := by
  refine ⟨?_, ?_, ?_⟩
  · intro key
    constructor
    · rintro ⟨c, hc⟩ hkey
      simp [SKFM.GetBlockCrypt, SKFM.ValidateKey, hkey] at hc
    · intro hkey
      refine ⟨.aes ⟨.sha256hex key, "kcp-file-transfer", 4096, 32⟩, ?_⟩
      simp [SKFM.GetBlockCrypt, SKFM.ValidateKey, hkey, SKFM.newAESBlockCrypt,
        SKFM.pbkdf2Key, SKFM.hashKey, SKFM.Salt]
  · intro key hkey
    simp [SKFM.GetBlockCrypt, SKFM.ValidateKey, hkey, SKFM.newAESBlockCrypt,
      SKFM.pbkdf2Key, SKFM.hashKey, SKFM.Salt]
  · intro k1 k2 h
    rw [h]

/-- Witness for C10 at the concrete passphrase abc. -/
theorem key_derivation_spec_witness :
    SKFM.GetBlockCrypt "abc" =
      .ok (.aes ⟨.sha256hex "abc", "kcp-file-transfer", 4096, 32⟩) :=
  key_derivation_spec.2.1 "abc" (by decide)

/-- C8: with pack transfer enabled a directory source is always packed
regardless of size; a file is packed exactly when its size reaches the
threshold (a file exactly at the threshold packs, one byte below does
not); with pack transfer disabled everything moves as-is; and the
download-side decision agrees with the upload-side one.  The decision is
a function of the single top-level stat alone, mirroring that the code
evaluates it once per request and never re-examines nested contents. -/
theorem pack_transfer_policy :
    (∀ t s, SKFM.uploadFilePackedMode ⟨true, t⟩ true s = .packed) ∧
    (∀ t s, SKFM.uploadFilePackedMode ⟨true, t⟩ false s =
      if s ≥ t then .packed else .asIs) ∧
    (∀ t, SKFM.uploadFilePackedMode ⟨true, t⟩ false t = .packed) ∧
    (∀ t, SKFM.uploadFilePackedMode ⟨true, t⟩ false (t - 1) = .asIs) ∧
    (∀ t d s, SKFM.uploadFilePackedMode ⟨false, t⟩ d s = .asIs) ∧
    (∀ cfg d s, SKFM.downloadFilePackedMode cfg d s =
      SKFM.uploadFilePackedMode cfg d s) := by
  refine ⟨?_, ?_, ?_, ?_, ?_, ?_⟩
  · intro t s
    simp [SKFM.uploadFilePackedMode]
  · intro t s
    simp [SKFM.uploadFilePackedMode]
  · intro t
    simp [SKFM.uploadFilePackedMode]
  · intro t
    simp [SKFM.uploadFilePackedMode]
  · intro t d s
    simp [SKFM.uploadFilePackedMode]
  · intro cfg d s
    cases cfg with
    | mk e t =>
      cases e <;> simp [SKFM.uploadFilePackedMode, SKFM.downloadFilePackedMode]

/-- C7: a canceled download task finishes in the Canceled state and
removes its partial local file, whatever the transfer result was; a
canceled upload task finishes Canceled but leaves partial output in
place; and CancelTask on an id absent from the registry returns an error
and leaves the registry unchanged. -/
theorem cancel_semantics :
    (∀ err, SKFM.finishDownloadTask true err =
      ⟨SKFM.TaskStatus.canceled, true⟩) ∧
    (∀ err, SKFM.finishUploadTask true err =
      ⟨SKFM.TaskStatus.canceled, false⟩) ∧
    (∀ (tasks : List SKFM.TaskRec) (taskID : String),
      (∀ t ∈ tasks, t.id ≠ taskID) →
      SKFM.cancelTask tasks taskID = .error "task not found") := by
  refine ⟨?_, ?_, ?_⟩
  · intro err
    simp [SKFM.finishDownloadTask]
  · intro err
    simp [SKFM.finishUploadTask]
  · intro tasks taskID h
    have hfalse : tasks.any (fun t => t.id = taskID) = false := by
      rw [List.any_eq_false]
      intro t ht
      simpa using h t ht
    simp [SKFM.cancelTask, hfalse]

/-- Witness for C7 on the empty registry. -/
theorem cancel_semantics_witness :
    SKFM.cancelTask [] "x" = .error "task not found" :=
  cancel_semantics.2.2 [] "x" (by simp)

/-- C9: HandleUpload opens the destination read-write without truncation
and seeks to the offset when the parsed Content-Range start is positive,
creates or truncates it when the offset is zero or the header is absent,
fsyncs after the body write and before reporting success in both cases,
and acquires no application-level lock. -/
theorem upload_handler_modes :
    (∀ off : Int, 0 < off → SKFM.handleUploadEvents off =
      [.mkdirParents, .openFile .createReadWrite, .seek off,
       .writeBody, .syncFile, .respondOK]) ∧
    (∀ off : Int, off ≤ 0 → SKFM.handleUploadEvents off =
      [.mkdirParents, .openFile .createTruncWrite,
       .writeBody, .syncFile, .respondOK]) ∧
    SKFM.parseStartOffset none = 0 ∧
    (∀ s e t : Int, SKFM.parseStartOffset (some (s, e, t)) = s) ∧
    (∀ (off : Int) (p : String),
      SKFM.UploadEvent.lockAcquire p ∉ SKFM.handleUploadEvents off) := by
  refine ⟨?_, ?_, rfl, fun s e t => rfl, ?_⟩
  · intro off hoff
    simp [SKFM.handleUploadEvents, hoff]
  · intro off hoff
    simp [SKFM.handleUploadEvents, not_lt.mpr hoff]
  · intro off p
    by_cases h : off > 0 <;>
      simp [SKFM.handleUploadEvents, h]

/-- Witness for C9 at the concrete offsets five and zero. -/
theorem upload_handler_modes_witness :
    SKFM.handleUploadEvents 5 =
      [.mkdirParents, .openFile .createReadWrite, .seek 5,
       .writeBody, .syncFile, .respondOK] ∧
    SKFM.handleUploadEvents 0 =
      [.mkdirParents, .openFile .createTruncWrite,
       .writeBody, .syncFile, .respondOK] :=
  ⟨upload_handler_modes.1 5 (by decide), upload_handler_modes.2.1 0 (by decide)⟩


namespace SKFM

/-! ## Download engine result paths (kcpclient/client.go)

The network and the disk are oracles: a run record holds what the remote
side and the local filesystem would answer.  The control flow around
those answers is transcribed from Client.verifyChecksum,
Client.downloadFileParallel, Client.downloadFileSingle and
Client.DownloadFile. -/

/-- Client.verifyChecksum once the remote hash has been fetched and the
local hash computed: any difference is a hard error. -/
def verifyChecksum (remoteHash localHash : String) : Except String Unit :=
  if remoteHash ≠ localHash then .error "checksum mismatch" else .ok ()

/-- Oracle for one run of downloadFileParallel: per-chunk transfer
success, merge success, the checksum response body, and the SHA-256 of
the merged local file. -/
structure ParallelDownloadRun where
  chunkOk : Nat → Bool
  mergeOk : Bool
  remoteHash : String
  localHash : String

/-- Control flow of Client.downloadFileParallel after the chunk ranges
are computed: any chunk failure fails the transfer, then the chunk files
merge in index order, then verifyChecksum decides the overall result. -/
def downloadFileParallel (run : ParallelDownloadRun) (fileSize : Nat) :
    Except String Unit :=
  if (List.range (numChunks fileSize)).all (fun i => run.chunkOk i) then
    if run.mergeOk then verifyChecksum run.remoteHash run.localHash
    else .error "merge failed"
  else .error "chunk failed"

/-- Oracle for one run of Client.downloadFileSingle: the os.Stat size of
the local path (none when the file does not exist), the ContentLength of
the HEAD response, and the two hashes verifyChecksum would compare. -/
structure SingleDownloadRun where
  localSize : Option Int
  remoteSize : Int
  remoteHash : String
  localHash : String

/-- The startByte variable of downloadFileSingle: the existing local
size, zero when os.Stat fails. -/
def startByteOf (run : SingleDownloadRun) : Int :=
  match run.localSize with
  | some s => s
  | none => 0

/-- Observable effects of one run of downloadFileSingle: the start
offsets of the content range requests it issued, the offset it wrote
from, whether it truncated the local file, and the result. -/
structure SingleDownloadTrace where
  contentRequestStarts : List Int
  writeOffset : Option Int
  truncated : Bool
  result : Except String Unit

/-- Client.downloadFileSingle: when the local size already reaches the
remote size the function returns success at once, issuing no content
request; otherwise it opens the file (truncating only for a zero start),
requests the range from startByte onward, writes from that offset and
ends with verifyChecksum. -/
def downloadFileSingle (run : SingleDownloadRun) : SingleDownloadTrace :=
  let startByte := startByteOf run
  let fileSize := run.remoteSize
  if startByte ≥ fileSize then
    ⟨[], none, false, .ok ()⟩
  else
    ⟨[startByte], some startByte, !(startByte > 0),
      verifyChecksum run.remoteHash run.localHash⟩

/-- The three ways Client.DownloadFile can go after its HEAD request. -/
inductive DownloadPath where
  | single
  | parallel
deriving DecidableEq

/-- Client.DownloadFile dispatch: a nonpositive ContentLength (and the
ContentLength of an empty remote file is zero) aborts with an
unknown-file-size error; otherwise sizes below 4 MiB take the
single-stream path and the rest the parallel path. -/
def DownloadFile (remoteContentLength : Int) : Except String DownloadPath :=
  if remoteContentLength ≤ 0 then .error "unknown file size"
  else if remoteContentLength < (defaultChunkSize : Int) then .ok .single
  else .ok .parallel

/-- OS write-at-offset semantics used by HandleUpload for a positive
offset: keep the prefix, zero-fill any gap past the current end,
overwrite from the offset. -/
def writeAtOffset (old : List Nat) (offset : Nat) (body : List Nat) :
    List Nat :=
  (old.take offset ++ List.replicate (offset - old.length) 0) ++
    body ++ old.drop (offset + body.length)

/-- The destination content after HandleUpload writes a body: offset
zero truncates and writes the body alone; a positive offset writes in
place at that offset. -/
def handleUploadWrite (old : List Nat) (startOffset : Nat)
    (body : List Nat) : List Nat :=
  if startOffset > 0 then writeAtOffset old startOffset body else body

end SKFM

/-- C3: once a download has transferred its data (all chunks of a
parallel download succeeded and merged in order, or a fresh single-stream
download ran to the end), the client compares the requested remote hash
with the locally computed hash, and any mismatch fails the whole
operation even though every transfer step succeeded. -/
theorem checksum_mismatch_fails_download :
    (∀ (run : SKFM.ParallelDownloadRun) (fileSize : Nat),
      (∀ i, run.chunkOk i = true) → run.mergeOk = true →
      SKFM.downloadFileParallel run fileSize =
        SKFM.verifyChecksum run.remoteHash run.localHash) ∧
    (∀ (run : SKFM.ParallelDownloadRun) (fileSize : Nat),
      (∀ i, run.chunkOk i = true) → run.mergeOk = true →
      run.remoteHash ≠ run.localHash →
      SKFM.downloadFileParallel run fileSize = .error "checksum mismatch") ∧
    (∀ run : SKFM.SingleDownloadRun,
      run.localSize = none → 0 < run.remoteSize →
      run.remoteHash ≠ run.localHash →
      (SKFM.downloadFileSingle run).result = .error "checksum mismatch") := by
  have hpar : ∀ (run : SKFM.ParallelDownloadRun) (fileSize : Nat),
      (∀ i, run.chunkOk i = true) → run.mergeOk = true →
      SKFM.downloadFileParallel run fileSize =
        SKFM.verifyChecksum run.remoteHash run.localHash := by
    intro run fileSize hchunks hmerge
    have hall : (List.range (SKFM.numChunks fileSize)).all
        (fun i => run.chunkOk i) = true := by
      rw [List.all_eq_true]
      intro i _
      exact hchunks i
    simp [SKFM.downloadFileParallel, hall, hmerge]
  refine ⟨hpar, ?_, ?_⟩
  · intro run fileSize hchunks hmerge hne
    rw [hpar run fileSize hchunks hmerge]
    simp [SKFM.verifyChecksum, hne]
  · intro run hlocal hsize hne
    have hstart : SKFM.startByteOf run = 0 := by
      simp [SKFM.startByteOf, hlocal]
    simp only [SKFM.downloadFileSingle, hstart]
    rw [if_neg (by omega)]
    simp [SKFM.verifyChecksum, hne]

/-- Witness for C3: an all-successful two-chunk transfer whose hashes
disagree, and a fresh single-stream transfer whose hashes disagree. -/
theorem checksum_mismatch_fails_download_witness :
    SKFM.downloadFileParallel ⟨fun _ => true, true, "aa", "bb"⟩ 8388608 =
      .error "checksum mismatch" ∧
    (SKFM.downloadFileSingle ⟨none, 100, "aa", "bb"⟩).result =
      .error "checksum mismatch" :=
  ⟨checksum_mismatch_fails_download.2.1 ⟨fun _ => true, true, "aa", "bb"⟩
      8388608 (fun _ => rfl) rfl (by decide),
    checksum_mismatch_fails_download.2.2 ⟨none, 100, "aa", "bb"⟩
      rfl (by decide) (by decide)⟩

/-- C4 evaluated at its failing input: uploading an empty file succeeds
and leaves a zero-length remote file, but DownloadFile on a remote file
whose ContentLength is zero returns the unknown-file-size error instead
of reproducing the empty content, so the size-zero round trip fails. -/
theorem empty_file_roundtrip_fails :
    ∀ old : List Nat,
      SKFM.handleUploadWrite old 0 [] = [] ∧
      SKFM.DownloadFile ((SKFM.handleUploadWrite old 0 []).length : Int) =
        .error "unknown file size" := by
  intro old
  refine ⟨rfl, ?_⟩
  simp [SKFM.handleUploadWrite, SKFM.DownloadFile]

/-- C5: downloadFileSingle treats a local file at or beyond the expected
remote size as complete, returning success with no content request and
no write; otherwise it issues exactly one range request starting at the
existing local size and writes from that offset (truncating only when
starting from scratch). -/
theorem single_stream_resume :
    (∀ run : SKFM.SingleDownloadRun,
      SKFM.startByteOf run ≥ run.remoteSize →
      SKFM.downloadFileSingle run = ⟨[], none, false, .ok ()⟩) ∧
    (∀ run : SKFM.SingleDownloadRun,
      SKFM.startByteOf run < run.remoteSize →
      (SKFM.downloadFileSingle run).contentRequestStarts =
          [SKFM.startByteOf run] ∧
        (SKFM.downloadFileSingle run).writeOffset =
          some (SKFM.startByteOf run) ∧
        (SKFM.downloadFileSingle run).truncated =
          !(SKFM.startByteOf run > 0)) := by
  constructor
  · intro run h
    simp [SKFM.downloadFileSingle, h]
  · intro run h
    simp [SKFM.downloadFileSingle, not_le.mpr h]

/-- Witness for C5: a local file of 10 bytes against a remote file of 10
bytes downloads nothing, and a local file of 3 bytes against a remote
file of 10 bytes requests exactly the range from byte 3. -/
theorem single_stream_resume_witness :
    SKFM.downloadFileSingle ⟨some 10, 10, "h", "h"⟩ = ⟨[], none, false, .ok ()⟩ ∧
    (SKFM.downloadFileSingle ⟨some 3, 10, "h", "h"⟩).contentRequestStarts = [3] :=
  ⟨single_stream_resume.1 ⟨some 10, 10, "h", "h"⟩ (by decide),
    (single_stream_resume.2 ⟨some 3, 10, "h", "h"⟩ (by decide)).1⟩

namespace SKFM

/-! ## Task manager admission control (tasks package)

Each Add*Task call registers a Pending task and starts a goroutine whose
body first performs a blocking send on the buffered semaphore channel of
capacity maxParallel, only then stores StatusRunning, runs the transfer,
stores a terminal status, and finally (deferred) receives from the
channel, freeing the slot.  The interleavings of those goroutines are a
transition system over the phase of every task. -/

/-- Phase of one task goroutine relative to the manager semaphore:
pending before the semaphore send succeeds, running once StatusRunning
is stored, finishing once a terminal status is stored but the deferred
release has not run, done after the release. -/
inductive Phase where
  | pending
  | running
  | finishing
  | done
deriving DecidableEq

/-- A task holds a semaphore slot exactly from the successful send until
the deferred receive. -/
def holdsSlot : Phase → Bool
  | .running => true
  | .finishing => true
  | _ => false

def isRunningPhase : Phase → Bool
  | .running => true
  | _ => false

/-- Number of semaphore slots held in a state. -/
def slotsUsed (s : List Phase) : Nat := s.countP holdsSlot

/-- Number of tasks whose Status field reads StatusRunning. -/
def runningCount (s : List Phase) : Nat := s.countP isRunningPhase

/-- NewManager: a nonpositive maxParallel argument falls back to 3; the
semaphore channel is created with that capacity. -/
def effMaxParallel (maxParallel : Int) : Nat :=
  if maxParallel ≤ 0 then 3 else maxParallel.toNat

/-- One interleaving step of the manager with semaphore capacity cap:
a new task is registered Pending; a Pending task acquires a slot only
when fewer than cap slots are held, becoming Running; a Running task
stores its terminal status; a terminal task releases its slot. -/
inductive ManagerStep (cap : Nat) : List Phase → List Phase → Prop where
  | spawn (s : List Phase) :
      ManagerStep cap s (s ++ [Phase.pending])
  | acquire (s₁ s₂ : List Phase)
      (h : slotsUsed (s₁ ++ Phase.pending :: s₂) < cap) :
      ManagerStep cap (s₁ ++ Phase.pending :: s₂) (s₁ ++ Phase.running :: s₂)
  | finish (s₁ s₂ : List Phase) :
      ManagerStep cap (s₁ ++ Phase.running :: s₂) (s₁ ++ Phase.finishing :: s₂)
  | release (s₁ s₂ : List Phase) :
      ManagerStep cap (s₁ ++ Phase.finishing :: s₂) (s₁ ++ Phase.done :: s₂)

/-- States reachable from the freshly constructed manager (no tasks). -/
inductive ManagerReachable (cap : Nat) : List Phase → Prop where
  | init : ManagerReachable cap []
  | step {s t : List Phase} :
      ManagerReachable cap s → ManagerStep cap s t → ManagerReachable cap t

lemma slotsUsed_append (a b : List Phase) :
    slotsUsed (a ++ b) = slotsUsed a + slotsUsed b := by
  simp [slotsUsed, List.countP_append]

lemma slotsUsed_middle (a b : List Phase) (p : Phase) :
    slotsUsed (a ++ p :: b) =
      slotsUsed a + slotsUsed b + (if holdsSlot p then 1 else 0) := by
  simp only [slotsUsed, List.countP_append, List.countP_cons]
  omega

/-- The semaphore invariant: no reachable state holds more slots than the
channel capacity. -/
lemma slotsUsed_le_cap {cap : Nat} {s : List Phase}
    (h : ManagerReachable cap s) : slotsUsed s ≤ cap := by
  induction h with
  | init => simp [slotsUsed]
  | step _ hstep ih =>
    cases hstep with
    | spawn s =>
      simpa [slotsUsed_append, slotsUsed, holdsSlot] using ih
    | acquire s₁ s₂ h =>
      rw [slotsUsed_middle] at h ⊢
      simp [holdsSlot] at h ⊢
      omega
    | finish s₁ s₂ =>
      rw [slotsUsed_middle] at ih ⊢
      simp [holdsSlot] at ih ⊢
      omega
    | release s₁ s₂ =>
      rw [slotsUsed_middle] at ih ⊢
      simp [holdsSlot] at ih ⊢
      omega

lemma runningCount_le_slotsUsed (s : List Phase) :
    runningCount s ≤ slotsUsed s := by
  refine List.countP_mono_left ?_
  intro p _ hp
  cases p <;> simp_all [isRunningPhase, holdsSlot]

end SKFM

/-- C6: with the semaphore capacity fixed by NewManager (3 whenever the
requested maxParallel is nonpositive), every reachable interleaving of
the task goroutines has at most that many tasks in the Running state:
a task becomes Running only after acquiring a semaphore slot, and tasks
beyond the limit stay Pending until a slot frees. -/
theorem task_concurrency_cap :
    (∀ mp : Int, mp ≤ 0 → SKFM.effMaxParallel mp = 3) ∧
    (∀ (mp : Int) (s : List SKFM.Phase),
      SKFM.ManagerReachable (SKFM.effMaxParallel mp) s →
      SKFM.runningCount s ≤ SKFM.effMaxParallel mp) := by
  constructor
  · intro mp h
    simp [SKFM.effMaxParallel, h]
  · intro mp s h
    exact le_trans (SKFM.runningCount_le_slotsUsed s) (SKFM.slotsUsed_le_cap h)

/-- Witness for C6: from the fresh manager with the default capacity,
spawn one task and let it acquire its slot; the theorem bounds the
single-Running state. -/
theorem task_concurrency_cap_witness :
    SKFM.effMaxParallel 0 = 3 ∧
    SKFM.runningCount [SKFM.Phase.running] ≤ SKFM.effMaxParallel 0 :=
  ⟨task_concurrency_cap.1 0 (by decide),
    task_concurrency_cap.2 0 [SKFM.Phase.running]
      (SKFM.ManagerReachable.step
        (SKFM.ManagerReachable.step SKFM.ManagerReachable.init
          (SKFM.ManagerStep.spawn []))
        (SKFM.ManagerStep.acquire [] [] (by decide)))⟩

namespace SKFM

/-! ## Path safety (server handlers and server/main.go)

The server resolves every request path with the Go standard library
helpers path.Clean, filepath.Join and filepath.Abs (on a slash-separated
Unix filesystem, where filepath.FromSlash is the identity and the
separator is the slash).  Those helpers are pure string functions; they
are embedded here structurally on the character list of the path so that
they evaluate inside the kernel.  filepath.Abs consults the working
directory of the process; it enters the model as the explicit cwd
argument. -/

/-- Split a character list on the slash separators (the element view of
a slash-separated path, with empty elements for doubled or leading
slashes). -/
def splitSlash : List Char → List (List Char)
  | [] => [[]]
  | c :: rest =>
    match splitSlash rest with
    | [] => [[]]
    | g :: gs => if c = '/' then [] :: g :: gs else (c :: g) :: gs

/-- The path element of two dots. -/
def dotdot : List Char := ['.', '.']

/-- One element step of the cleaning loop of path.Clean: empty and
single-dot elements vanish, a dot-dot element pops the previous element
unless the stack is empty (where it vanishes on a rooted path and
accumulates on a relative one) or already ends in dot-dot. -/
def cleanStep (rooted : Bool) (stack : List (List Char)) (e : List Char) :
    List (List Char) :=
  if e = [] ∨ e = ['.'] then stack
  else if e = dotdot then
    match stack with
    | top :: rest => if top = dotdot then dotdot :: top :: rest else rest
    | [] => if rooted then [] else [dotdot]
  else e :: stack

/-- Join elements back with slashes. -/
def joinSlash : List (List Char) → List Char
  | [] => []
  | [g] => g
  | g :: gs => g ++ '/' :: joinSlash gs

/-- path.Clean of the Go standard library, on the character list of the
path: the shortest lexically equivalent path. -/
def pathCleanChars (p : List Char) : List Char :=
  if p = [] then ['.']
  else
    let rooted := p.head? = some '/'
    let elems := ((splitSlash p).foldl (cleanStep rooted) []).reverse
    let out := joinSlash elems
    if rooted then '/' :: out
    else if out = [] then ['.'] else out

/-- path.Clean on strings. -/
def pathClean (p : String) : String := String.mk (pathCleanChars p.data)

/-- filepath.Join of two elements on a slash-separated filesystem: empty
leading elements are skipped, the rest joined with a slash and
cleaned. -/
def filepathJoin (a b : String) : String :=
  if a = "" then
    if b = "" then "" else pathClean b
  else String.mk (pathCleanChars (a.data ++ '/' :: b.data))

/-- strings.HasPrefix. -/
def hasPrefixStr (s pre : String) : Bool := List.isPrefixOf pre.data s.data

/-- filepath.Abs with the working directory made explicit: an absolute
path is cleaned, a relative one is joined onto the working directory. -/
def filepathAbs (cwd p : String) : String :=
  if p.data.head? = some '/' then pathClean p else filepathJoin cwd p

/-- FileHandler.isPathSafe (the same logic appears once more as the
top-level isPathSafe of server/main.go): clean the request path rooted
at a slash, join it under the root, take absolute forms of both the root
and the result, and accept exactly when the absolute result equals the
absolute root or extends it past a separator.  The successful return
value is the joined path, which the handlers then hand to every
filesystem call. -/
def isPathSafe (cwd root requestPath : String) : Option String :=
  let cleanPath := pathClean ("/" ++ requestPath)
  let fullPath := filepathJoin root cleanPath
  let absRoot := filepathAbs cwd root
  let absPath := filepathAbs cwd fullPath
  if hasPrefixStr absPath (absRoot ++ "/") || absPath = absRoot then
    some fullPath
  else none

/-- Occurrence of a character sequence inside another
(strings.Contains). -/
def containsSeq : List Char → List Char → Bool
  | [], sub => sub.isEmpty
  | c :: cs, sub => List.isPrefixOf sub (c :: cs) || containsSeq cs sub

/-- strings.Contains on strings. -/
def containsStr (s sub : String) : Bool := containsSeq s.data sub.data

/-- strings.TrimPrefix. -/
def trimPrefixStr (s pre : String) : String :=
  if hasPrefixStr s pre then String.mk (s.data.drop pre.data.length) else s

/-- FileHandler.cleanRelPath: clean the path rooted at a slash, strip
the leading slash again, and drop any path that still looks like a
traversal (a check that the preceding rooted clean in fact makes
unreachable). -/
def cleanRelPath (rel : String) : String :=
  if rel = "" then ""
  else
    let clean := trimPrefixStr (pathClean ("/" ++ rel)) "/"
    if hasPrefixStr clean ".." || containsStr clean "/../" then ""
    else clean

/-- The path p, resolved to absolute form against cwd, lies at the
resolved root or strictly under it. -/
def resolvedUnderRoot (cwd root p : String) : Bool :=
  hasPrefixStr (filepathAbs cwd p) (filepathAbs cwd root ++ "/") ||
    filepathAbs cwd p = filepathAbs cwd root

example : pathClean "/a/b/../c" = "/a/c" := by decide
example : pathClean "/../etc/passwd" = "/etc/passwd" := by decide
example : pathClean "a/../../b" = "../b" := by decide
example : pathClean "" = "." := by decide
example : pathClean "/" = "/" := by decide
example : pathClean "a/.." = "." := by decide
example : filepathJoin "/srv" "/etc/passwd" = "/srv/etc/passwd" := by decide
example : isPathSafe "/" "/srv" "../etc/passwd" = some "/srv/etc/passwd" := by
  decide
example : isPathSafe "/" "/srv" "a/b" = some "/srv/a/b" := by decide
example : cleanRelPath "../etc" = "etc" := by decide

end SKFM

namespace SKFM

/-! ## Server dispatch and filesystem calls

The handlers of the handlers package and server/main.go, reduced to the
filesystem calls they perform and the success or failure they report.
The filesystem itself is an oracle (FsView); HTTP plumbing, response
bodies and status codes are dropped; whitespace trimming of compress
source elements and the lowercasing of archive extensions are elided as
irrelevant string cosmetics.  Everything else follows the handler bodies
statement by statement, in particular the order of the path-safety check
relative to every filesystem call. -/

/-- Split a character list on a separator (strings.Split). -/
def splitOnChar (sep : Char) : List Char → List (List Char)
  | [] => [[]]
  | c :: rest =>
    match splitOnChar sep rest with
    | [] => [[]]
    | g :: gs => if c = sep then [] :: g :: gs else (c :: g) :: gs

/-- filepath.Dir: everything up to the final separator, cleaned. -/
def filepathDir (p : String) : String :=
  String.mk (pathCleanChars
    ((p.data.reverse.dropWhile (fun c => !(c == '/'))).reverse))

/-- filepath.Ext: the suffix of the final element from its last dot. -/
def filepathExt (p : String) : String :=
  let rev := p.data.reverse
  let tail := rev.takeWhile (fun c => !(c == '.') && !(c == '/'))
  match rev.drop tail.length with
  | '.' :: _ => String.mk ('.' :: tail.reverse)
  | _ => ""

/-- strings.HasSuffix. -/
def hasSuffixStr (s suf : String) : Bool := List.isSuffixOf suf.data s.data

/-- The 1 MiB maxEditSize limit of the edit handler. -/
def maxEditSize : Int := 1 * 1024 * 1024

/-- One octal digit of strconv.ParseUint with base 8: the characters
from zero to seven (code points 48 to 55) and nothing else. -/
def octDigitVal (c : Char) : Option Nat :=
  if 48 ≤ c.toNat ∧ c.toNat ≤ 55 then some (c.toNat - 48) else none

def parseOctalChars : List Char → Nat → Option Nat
  | [], acc => some acc
  | c :: cs, acc =>
    match octDigitVal c with
    | none => none
    | some d => parseOctalChars cs (acc * 8 + d)

/-- strconv.ParseUint(modeStr, 8, 32): octal digits only, nonempty,
within 32 bits. -/
def parseOctal (s : String) : Option Nat :=
  if s = "" then none
  else
    match parseOctalChars s.data 0 with
    | none => none
    | some v => if v < 2 ^ 32 then some v else none

/-- The filesystem facts a handler consults: existence, directory flag
and size of a path. -/
structure FsView where
  existsF : String → Bool
  isDirF : String → Bool
  sizeF : String → Int

/-- A filesystem call a handler performs, with the paths it touches. -/
inductive FsOp where
  | statF (p : String)
  | readDir (p : String)
  | walkDir (p : String)
  | removeAll (p : String)
  | removeF (p : String)
  | mkdirAll (p : String)
  | renameF (oldPath newPath : String)
  | chmodF (p : String) (mode : Nat)
  | readFileF (p : String)
  | writeFileF (p : String)
  | openWrite (p : String) (truncate : Bool)
  | openRead (p : String)
  | archiveCreate (out : String) (srcs : List String)
  | archiveExtract (arch dest : String)
deriving DecidableEq

/-- The paths an FsOp touches. -/
def opPaths : FsOp → List String
  | .statF p => [p]
  | .readDir p => [p]
  | .walkDir p => [p]
  | .removeAll p => [p]
  | .removeF p => [p]
  | .mkdirAll p => [p]
  | .renameF o n => [o, n]
  | .chmodF p _ => [p]
  | .readFileF p => [p]
  | .writeFileF p => [p]
  | .openWrite p _ => [p]
  | .openRead p => [p]
  | .archiveCreate out srcs => out :: srcs
  | .archiveExtract a d => [a, d]

/-- The request/response actions of the server, with the parameters the
handlers read (query parameters, the parsed Content-Range start and the
auto-extract flag for upload, the ContentLength for edit saves). -/
inductive Request where
  | list (path : String) (recursive : Bool)
  | delete (path : String)
  | mkdir (path : String)
  | rename (oldPath newPath : String)
  | stat (path : String)
  | chmod (path modeStr : String)
  | upload (path : String) (startOffset : Int) (autoExtract : Bool)
  | editGet (path : String)
  | editPut (path : String) (contentLength : Int)
  | compress (pathsRaw output format : String)
  | extract (path dest : String)
  | checksum (urlPath : String)

/-- FileHandler.HandleList via ListFiles: cleanRelPath, then isPathSafe,
then one directory walk or read. -/
def handleList (cwd root : String) (path : String) (recursive : Bool) :
    List FsOp × Option String :=
  match isPathSafe cwd root (cleanRelPath path) with
  | none => ([], some "Cannot list files")
  | some target =>
    if recursive then ([.walkDir target], none)
    else ([.readDir target], none)

/-- FileHandler.HandleDelete. -/
def handleDelete (cwd root : String) (fs : FsView) (path : String) :
    List FsOp × Option String :=
  match isPathSafe cwd root path with
  | none => ([], some "Invalid path")
  | some cp =>
    if !fs.existsF cp then ([.statF cp], some "File not found")
    else if fs.isDirF cp then ([.statF cp, .removeAll cp], none)
    else ([.statF cp, .removeF cp], none)

/-- FileHandler.HandleMkdir. -/
def handleMkdir (cwd root : String) (path : String) :
    List FsOp × Option String :=
  match isPathSafe cwd root path with
  | none => ([], some "Invalid path")
  | some cp => ([.mkdirAll cp], none)

/-- FileHandler.HandleRename. -/
def handleRename (cwd root : String) (fs : FsView) (oldPath newPath : String) :
    List FsOp × Option String :=
  if oldPath = "" ∨ newPath = "" then ([], some "Missing old or new path")
  else
    match isPathSafe cwd root oldPath with
    | none => ([], some "Invalid old path")
    | some co =>
      match isPathSafe cwd root newPath with
      | none => ([], some "Invalid new path")
      | some cn =>
        if !fs.existsF co then ([.statF co], some "Source not found")
        else ([.statF co, .renameF co cn], none)

/-- FileHandler.HandleStat. -/
def handleStat (cwd root : String) (fs : FsView) (path : String) :
    List FsOp × Option String :=
  if path = "" then ([], some "Missing path parameter")
  else
    match isPathSafe cwd root path with
    | none => ([], some "Invalid path")
    | some cp =>
      if !fs.existsF cp then ([.statF cp], some "File not found")
      else ([.statF cp], none)

/-- FileHandler.HandleChmod. -/
def handleChmod (cwd root : String) (fs : FsView) (path modeStr : String) :
    List FsOp × Option String :=
  if path = "" ∨ modeStr = "" then ([], some "Missing path or mode parameter")
  else
    match isPathSafe cwd root path with
    | none => ([], some "Invalid path")
    | some cp =>
      match parseOctal modeStr with
      | none => ([], some "Invalid mode format")
      | some mode =>
        if !fs.existsF cp then ([.statF cp], some "File not found")
        else ([.statF cp, .chmodF cp mode], none)

/-- UploadHandler.HandleUpload: path check, parent directory creation,
open (truncating only for a nonpositive offset), body write and sync
(folded into openWrite here; the event-level view is handleUploadEvents),
and the optional auto-extraction of a tar.gz into its parent followed by
archive removal. -/
def handleUpload (cwd root : String) (path : String) (startOffset : Int)
    (autoExtract : Bool) : List FsOp × Option String :=
  if path = "" then ([], some "Missing path parameter")
  else
    match isPathSafe cwd root path with
    | none => ([], some "Invalid path")
    | some cp =>
      let base := [FsOp.mkdirAll (filepathDir cp),
        FsOp.openWrite cp (decide (startOffset ≤ 0))]
      if autoExtract && hasSuffixStr cp ".tar.gz" then
        (base ++ [.archiveExtract cp (filepathDir cp), .removeF cp], none)
      else (base, none)

/-- EditHandler.HandleGetFile. -/
def handleEditGet (cwd root : String) (fs : FsView) (path : String) :
    List FsOp × Option String :=
  if path = "" then ([], some "Missing path parameter")
  else
    match isPathSafe cwd root path with
    | none => ([], some "Invalid path")
    | some cp =>
      if !fs.existsF cp then ([.statF cp], some "File not found")
      else if fs.sizeF cp > maxEditSize then
        ([.statF cp], some "File too large for editing")
      else if fs.isDirF cp then ([.statF cp], some "Cannot edit directory")
      else ([.statF cp, .readFileF cp], none)

/-- EditHandler.HandleSaveFile. -/
def handleEditPut (cwd root : String) (path : String) (contentLength : Int) :
    List FsOp × Option String :=
  if path = "" then ([], some "Missing path parameter")
  else
    match isPathSafe cwd root path with
    | none => ([], some "Invalid path")
    | some cp =>
      if contentLength > maxEditSize then ([], some "Content too large")
      else ([.mkdirAll (filepathDir cp), .writeFileF cp], none)

/-- CompressHandler.HandleCompress: output validated first, sources
split on commas with empty or unsafe elements silently dropped, parent
directory of the output created, then the archive written. -/
def handleCompress (cwd root : String) (pathsRaw output format : String) :
    List FsOp × Option String :=
  if pathsRaw = "" ∨ output = "" then
    ([], some "Missing paths or output parameter")
  else
    let format2 := if format = "" then "zip" else format
    match isPathSafe cwd root output with
    | none => ([], some "Invalid output path")
    | some cout =>
      let parts := (splitOnChar ',' pathsRaw.data).map String.mk
      let valid := parts.filterMap
        (fun p => if p = "" then none else isPathSafe cwd root p)
      if valid = [] then ([], some "No valid source paths")
      else
        let pre := [FsOp.mkdirAll (filepathDir cout)]
        if format2 = "zip" ∨ format2 = "tar" ∨ format2 = "targz" ∨
            format2 = "tar.gz" then
          (pre ++ [.archiveCreate cout valid], none)
        else if format2 = "gzip" then
          if valid.length ≠ 1 then (pre, some "Gzip only supports single file")
          else (pre ++ [.archiveCreate cout valid], none)
        else (pre, some "Unsupported format")

/-- The destination HandleExtract uses: the explicit dest parameter, or
the archive path stripped of its extension. -/
def extractDest (path dest : String) : String :=
  if dest = "" then
    String.mk (path.data.take (path.data.length - (filepathExt path).data.length))
  else dest

/-- CompressHandler.HandleExtract. -/
def handleExtract (cwd root : String) (path dest : String) :
    List FsOp × Option String :=
  if path = "" then ([], some "Missing path parameter")
  else
    match isPathSafe cwd root path with
    | none => ([], some "Invalid archive path")
    | some carch =>
      match isPathSafe cwd root (extractDest path dest) with
      | none => ([], some "Invalid destination path")
      | some cdest =>
        let ext := filepathExt carch
        if ext = ".zip" ∨ ext = ".tar" ∨ ext = ".gz" ∨ ext = ".tgz" then
          ([.mkdirAll cdest, .archiveExtract carch cdest], none)
        else ([.mkdirAll cdest], some "Unsupported archive format")

/-- handleChecksum of server/main.go. -/
def handleChecksum (cwd root : String) (urlPath : String) :
    List FsOp × Option String :=
  match isPathSafe cwd root urlPath with
  | none => ([], some "Invalid path")
  | some cp => ([.openRead cp], none)

/-- The action dispatch of createMainHandler in server/main.go, reduced
to the filesystem calls performed and the reported outcome. -/
def serverStep (cwd root : String) (fs : FsView) : Request →
    List FsOp × Option String
  | .list p r => handleList cwd root p r
  | .delete p => handleDelete cwd root fs p
  | .mkdir p => handleMkdir cwd root p
  | .rename o n => handleRename cwd root fs o n
  | .stat p => handleStat cwd root fs p
  | .chmod p m => handleChmod cwd root fs p m
  | .upload p off ax => handleUpload cwd root p off ax
  | .editGet p => handleEditGet cwd root fs p
  | .editPut p cl => handleEditPut cwd root p cl
  | .compress ps out fmt => handleCompress cwd root ps out fmt
  | .extract p d => handleExtract cwd root p d
  | .checksum p => handleChecksum cwd root p

/-- The path parameters of a request fail the safety check: the single
path for single-path actions, either end for rename, the archive or the
destination for extract, and for compress the output or else every
source element (empty elements are dropped by the handler). -/
def requestPathUnsafe (cwd root : String) : Request → Prop
  | .list p _ => isPathSafe cwd root (cleanRelPath p) = none
  | .delete p => isPathSafe cwd root p = none
  | .mkdir p => isPathSafe cwd root p = none
  | .rename o n => isPathSafe cwd root o = none ∨ isPathSafe cwd root n = none
  | .stat p => isPathSafe cwd root p = none
  | .chmod p _ => isPathSafe cwd root p = none
  | .upload p _ _ => isPathSafe cwd root p = none
  | .editGet p => isPathSafe cwd root p = none
  | .editPut p _ => isPathSafe cwd root p = none
  | .compress ps out _ => isPathSafe cwd root out = none ∨
      (∀ p ∈ (splitOnChar ',' ps.data).map String.mk,
        p = "" ∨ isPathSafe cwd root p = none)
  | .extract p d => isPathSafe cwd root p = none ∨
      isPathSafe cwd root (extractDest p d) = none
  | .checksum p => isPathSafe cwd root p = none

end SKFM

namespace SKFM

/-- Whatever isPathSafe accepts resolves to the root or strictly under
it: the returned path is exactly the one whose absolute form the guard
compared against the absolute root. -/
lemma isPathSafe_under (cwd root rp full : String)
    (h : isPathSafe cwd root rp = some full) :
    resolvedUnderRoot cwd root full = true := by
  unfold isPathSafe at h
  dsimp only at h
  split at h
  · rename_i hcond
    injection h with h
    subst h
    unfold resolvedUnderRoot
    exact hcond
  · exact absurd h (by simp)

/-- Every handler returns an error without touching the filesystem when
its request path parameters fail the safety check. -/
lemma unsafe_rejected (cwd root : String) (fs : FsView) (req : Request)
    (h : requestPathUnsafe cwd root req) :
    (serverStep cwd root fs req).1 = [] ∧
      ((serverStep cwd root fs req).2).isSome = true := by
  cases req with
  | list p r =>
    simp only [requestPathUnsafe] at h
    simp [serverStep, handleList, h]
  | delete p =>
    simp only [requestPathUnsafe] at h
    simp [serverStep, handleDelete, h]
  | mkdir p =>
    simp only [requestPathUnsafe] at h
    simp [serverStep, handleMkdir, h]
  | rename o n =>
    simp only [requestPathUnsafe] at h
    by_cases ho : o = ""
    · simp [serverStep, handleRename, ho]
    · by_cases hn : n = ""
      · simp [serverStep, handleRename, hn]
      · rcases h with h | h
        · simp [serverStep, handleRename, ho, hn, h]
        · cases hco : isPathSafe cwd root o with
          | none => simp [serverStep, handleRename, ho, hn, hco]
          | some co => simp [serverStep, handleRename, ho, hn, hco, h]
  | stat p =>
    simp only [requestPathUnsafe] at h
    by_cases hp : p = "" <;> simp [serverStep, handleStat, hp, h]
  | chmod p m =>
    simp only [requestPathUnsafe] at h
    by_cases hpm : p = "" ∨ m = ""
    · simp [serverStep, handleChmod, hpm]
    · simp [serverStep, handleChmod, hpm, h]
  | upload p off ax =>
    simp only [requestPathUnsafe] at h
    by_cases hp : p = "" <;> simp [serverStep, handleUpload, hp, h]
  | editGet p =>
    simp only [requestPathUnsafe] at h
    by_cases hp : p = "" <;> simp [serverStep, handleEditGet, hp, h]
  | editPut p cl =>
    simp only [requestPathUnsafe] at h
    by_cases hp : p = "" <;> simp [serverStep, handleEditPut, hp, h]
  | compress ps out fmt =>
    simp only [requestPathUnsafe] at h
    by_cases h0 : ps = "" ∨ out = ""
    · simp [serverStep, handleCompress, h0]
    · rcases h with h | h
      · simp [serverStep, handleCompress, h0, h]
      · cases hout : isPathSafe cwd root out with
        | none => simp [serverStep, handleCompress, h0, hout]
        | some cout =>
          have hvalid : ((splitOnChar ',' ps.data).map String.mk).filterMap
              (fun p => if p = "" then none else isPathSafe cwd root p) =
                [] := by
            rw [List.filterMap_eq_nil_iff]
            intro p hp
            by_cases hpe : p = ""
            · simp [hpe]
            · rcases h p hp with h1 | h1
              · exact absurd h1 hpe
              · simp [hpe, h1]
          simp [serverStep, handleCompress, h0, hout, hvalid]
  | extract p d =>
    simp only [requestPathUnsafe] at h
    by_cases hp : p = ""
    · simp [serverStep, handleExtract, hp]
    · rcases h with h | h
      · simp [serverStep, handleExtract, hp, h]
      · cases harch : isPathSafe cwd root p with
        | none => simp [serverStep, handleExtract, hp, harch]
        | some carch => simp [serverStep, handleExtract, hp, harch, h]
  | checksum p =>
    simp only [requestPathUnsafe] at h
    simp [serverStep, handleChecksum, h]

/-- Sources surviving the filterMap of handleCompress are accepted
safety-check outputs. -/
lemma mem_compress_valid (cwd root : String) (parts : List String)
    (q : String)
    (hq : q ∈ parts.filterMap
      (fun p => if p = "" then none else isPathSafe cwd root p)) :
    resolvedUnderRoot cwd root q = true := by
  rcases List.mem_filterMap.mp hq with ⟨p, hp, hf⟩
  by_cases hpe : p = ""
  · simp [hpe] at hf
  · rw [if_neg hpe] at hf
    exact isPathSafe_under _ _ _ _ hf


/-- Sources surviving the filterMap of handleCompress are accepted
safety-check outputs, whatever shape the element view takes. -/
lemma mem_compress_valid_gen (cwd root : String) (q : String) {α : Type}
    (g : α → String) (raw : List α)
    (hq : q ∈ raw.filterMap
      (fun a => if g a = "" then none else isPathSafe cwd root (g a))) :
    resolvedUnderRoot cwd root q = true := by
  rcases List.mem_filterMap.mp hq with ⟨a, ha, hf⟩
  by_cases hpe : g a = ""
  · simp [hpe] at hf
  · rw [if_neg hpe] at hf
    exact isPathSafe_under _ _ _ _ hf

/-- Every path a handler hands to the filesystem is the in-root resolved
request target, or the parent directory of such a target (the mkdir
prelude of upload, edit-save and compress, and the extraction target of
an auto-extracted upload archive). -/
lemma serverStep_ops_under (cwd root : String) (fs : FsView)
    (req : Request) :
    ∀ op ∈ (serverStep cwd root fs req).1, ∀ q ∈ opPaths op,
      resolvedUnderRoot cwd root q = true ∨
        ∃ t, resolvedUnderRoot cwd root t = true ∧ q = filepathDir t := by
  cases req with
  | list p r =>
    cases hs : isPathSafe cwd root (cleanRelPath p) with
    | none => simp [serverStep, handleList, hs]
    | some target =>
      have ht := isPathSafe_under _ _ _ _ hs
      have key : (serverStep cwd root fs (.list p r)).1 =
          [FsOp.walkDir target] ∨
          (serverStep cwd root fs (.list p r)).1 = [FsOp.readDir target] := by
        simp only [serverStep, handleList, hs]
        split
        · exact Or.inl rfl
        · exact Or.inr rfl
      intro op hop q hq
      rcases key with hk | hk <;> rw [hk] at hop <;>
        (simp at hop; subst hop; simp [opPaths] at hq; subst hq;
          exact Or.inl ht)
  | delete p =>
    cases hs : isPathSafe cwd root p with
    | none => simp [serverStep, handleDelete, hs]
    | some cp =>
      have ht := isPathSafe_under _ _ _ _ hs
      have key : (serverStep cwd root fs (.delete p)).1 = [FsOp.statF cp] ∨
          (serverStep cwd root fs (.delete p)).1 =
            [FsOp.statF cp, FsOp.removeAll cp] ∨
          (serverStep cwd root fs (.delete p)).1 =
            [FsOp.statF cp, FsOp.removeF cp] := by
        simp only [serverStep, handleDelete, hs]
        split
        · exact Or.inl rfl
        · split
          · exact Or.inr (Or.inl rfl)
          · exact Or.inr (Or.inr rfl)
      intro op hop q hq
      rcases key with hk | hk | hk <;> rw [hk] at hop
      · simp at hop
        subst hop
        simp [opPaths] at hq
        subst hq
        exact Or.inl ht
      all_goals
        (simp at hop; rcases hop with rfl | rfl <;>
          (simp [opPaths] at hq; subst hq; exact Or.inl ht))
  | mkdir p =>
    cases hs : isPathSafe cwd root p with
    | none => simp [serverStep, handleMkdir, hs]
    | some cp =>
      have ht := isPathSafe_under _ _ _ _ hs
      intro op hop q hq
      simp only [serverStep, handleMkdir, hs] at hop
      simp at hop
      subst hop
      simp [opPaths] at hq
      subst hq
      exact Or.inl ht
  | rename o n =>
    by_cases h0 : o = "" ∨ n = ""
    · simp [serverStep, handleRename, h0]
    · cases hso : isPathSafe cwd root o with
      | none => simp [serverStep, handleRename, h0, hso]
      | some co =>
        cases hsn : isPathSafe cwd root n with
        | none => simp [serverStep, handleRename, h0, hso, hsn]
        | some cn =>
          have hto := isPathSafe_under _ _ _ _ hso
          have htn := isPathSafe_under _ _ _ _ hsn
          have key : (serverStep cwd root fs (.rename o n)).1 =
              [FsOp.statF co] ∨
              (serverStep cwd root fs (.rename o n)).1 =
                [FsOp.statF co, FsOp.renameF co cn] := by
            simp only [serverStep, handleRename, hso, hsn]
            rw [if_neg h0]
            split
            · exact Or.inl rfl
            · exact Or.inr rfl
          intro op hop q hq
          rcases key with hk | hk <;> rw [hk] at hop
          · simp at hop
            subst hop
            simp [opPaths] at hq
            subst hq
            exact Or.inl hto
          · simp at hop
            rcases hop with rfl | rfl
            · simp [opPaths] at hq
              subst hq
              exact Or.inl hto
            · simp [opPaths] at hq
              rcases hq with rfl | rfl
              · exact Or.inl hto
              · exact Or.inl htn
  | stat p =>
    by_cases hp : p = ""
    · simp [serverStep, handleStat, hp]
    · cases hs : isPathSafe cwd root p with
      | none => simp [serverStep, handleStat, hp, hs]
      | some cp =>
        have ht := isPathSafe_under _ _ _ _ hs
        have key : (serverStep cwd root fs (.stat p)).1 =
            [FsOp.statF cp] := by
          simp only [serverStep, handleStat, hs]
          rw [if_neg hp]
          split <;> rfl
        intro op hop q hq
        rw [key] at hop
        simp at hop
        subst hop
        simp [opPaths] at hq
        subst hq
        exact Or.inl ht
  | chmod p m =>
    by_cases h0 : p = "" ∨ m = ""
    · simp [serverStep, handleChmod, h0]
    · cases hs : isPathSafe cwd root p with
      | none => simp [serverStep, handleChmod, h0, hs]
      | some cp =>
        have ht := isPathSafe_under _ _ _ _ hs
        cases hm : parseOctal m with
        | none => simp [serverStep, handleChmod, h0, hs, hm]
        | some mode =>
          have key : (serverStep cwd root fs (.chmod p m)).1 =
              [FsOp.statF cp] ∨
              (serverStep cwd root fs (.chmod p m)).1 =
                [FsOp.statF cp, FsOp.chmodF cp mode] := by
            simp only [serverStep, handleChmod, hs, hm]
            rw [if_neg h0]
            split
            · exact Or.inl rfl
            · exact Or.inr rfl
          intro op hop q hq
          rcases key with hk | hk <;> rw [hk] at hop
          · simp at hop
            subst hop
            simp [opPaths] at hq
            subst hq
            exact Or.inl ht
          · simp at hop
            rcases hop with rfl | rfl <;>
              (simp [opPaths] at hq; subst hq; exact Or.inl ht)
  | upload p off ax =>
    by_cases hp : p = ""
    · simp [serverStep, handleUpload, hp]
    · cases hs : isPathSafe cwd root p with
      | none => simp [serverStep, handleUpload, hp, hs]
      | some cp =>
        have ht := isPathSafe_under _ _ _ _ hs
        have key : (serverStep cwd root fs (.upload p off ax)).1 =
            [FsOp.mkdirAll (filepathDir cp),
              FsOp.openWrite cp (decide (off ≤ 0)),
              FsOp.archiveExtract cp (filepathDir cp), FsOp.removeF cp] ∨
            (serverStep cwd root fs (.upload p off ax)).1 =
              [FsOp.mkdirAll (filepathDir cp),
                FsOp.openWrite cp (decide (off ≤ 0))] := by
          simp only [serverStep, handleUpload, hs]
          rw [if_neg hp]
          split
          · exact Or.inl rfl
          · exact Or.inr rfl
        intro op hop q hq
        rcases key with hk | hk <;> rw [hk] at hop
        · simp at hop
          rcases hop with rfl | rfl | rfl | rfl
          · simp [opPaths] at hq
            subst hq
            exact Or.inr ⟨cp, ht, rfl⟩
          · simp [opPaths] at hq
            subst hq
            exact Or.inl ht
          · simp [opPaths] at hq
            rcases hq with rfl | rfl
            · exact Or.inl ht
            · exact Or.inr ⟨cp, ht, rfl⟩
          · simp [opPaths] at hq
            subst hq
            exact Or.inl ht
        · simp at hop
          rcases hop with rfl | rfl
          · simp [opPaths] at hq
            subst hq
            exact Or.inr ⟨cp, ht, rfl⟩
          · simp [opPaths] at hq
            subst hq
            exact Or.inl ht
  | editGet p =>
    by_cases hp : p = ""
    · simp [serverStep, handleEditGet, hp]
    · cases hs : isPathSafe cwd root p with
      | none => simp [serverStep, handleEditGet, hp, hs]
      | some cp =>
        have ht := isPathSafe_under _ _ _ _ hs
        have key : (serverStep cwd root fs (.editGet p)).1 =
            [FsOp.statF cp] ∨
            (serverStep cwd root fs (.editGet p)).1 =
              [FsOp.statF cp, FsOp.readFileF cp] := by
          simp only [serverStep, handleEditGet, hs]
          rw [if_neg hp]
          split
          · exact Or.inl rfl
          · split
            · exact Or.inl rfl
            · split
              · exact Or.inl rfl
              · exact Or.inr rfl
        intro op hop q hq
        rcases key with hk | hk <;> rw [hk] at hop
        · simp at hop
          subst hop
          simp [opPaths] at hq
          subst hq
          exact Or.inl ht
        · simp at hop
          rcases hop with rfl | rfl <;>
            (simp [opPaths] at hq; subst hq; exact Or.inl ht)
  | editPut p cl =>
    by_cases hp : p = ""
    · simp [serverStep, handleEditPut, hp]
    · cases hs : isPathSafe cwd root p with
      | none => simp [serverStep, handleEditPut, hp, hs]
      | some cp =>
        have ht := isPathSafe_under _ _ _ _ hs
        have key : (serverStep cwd root fs (.editPut p cl)).1 = [] ∨
            (serverStep cwd root fs (.editPut p cl)).1 =
              [FsOp.mkdirAll (filepathDir cp), FsOp.writeFileF cp] := by
          simp only [serverStep, handleEditPut, hs]
          rw [if_neg hp]
          split
          · exact Or.inl rfl
          · exact Or.inr rfl
        intro op hop q hq
        rcases key with hk | hk <;> rw [hk] at hop
        · simp at hop
        · simp at hop
          rcases hop with rfl | rfl
          · simp [opPaths] at hq
            subst hq
            exact Or.inr ⟨cp, ht, rfl⟩
          · simp [opPaths] at hq
            subst hq
            exact Or.inl ht
  | compress ps out fmt =>
    by_cases h0 : ps = "" ∨ out = ""
    · simp [serverStep, handleCompress, h0]
    · cases hout : isPathSafe cwd root out with
      | none => simp [serverStep, handleCompress, h0, hout]
      | some cout =>
        have hto := isPathSafe_under _ _ _ _ hout
        have key : (serverStep cwd root fs (.compress ps out fmt)).1 = [] ∨
            (serverStep cwd root fs (.compress ps out fmt)).1 =
              [FsOp.mkdirAll (filepathDir cout)] ∨
            (serverStep cwd root fs (.compress ps out fmt)).1 =
              [FsOp.mkdirAll (filepathDir cout),
                FsOp.archiveCreate cout
                  (((splitOnChar ',' ps.data).map String.mk).filterMap
                    (fun p => if p = "" then none
                      else isPathSafe cwd root p))] := by
          simp only [serverStep, handleCompress, hout]
          rw [if_neg h0]
          repeat' split
          all_goals first
            | exact Or.inl rfl
            | exact Or.inr (Or.inl rfl)
            | exact Or.inr (Or.inr rfl)
        intro op hop q hq
        rcases key with hk | hk | hk <;> rw [hk] at hop
        · simp at hop
        · simp at hop
          subst hop
          simp [opPaths] at hq
          subst hq
          exact Or.inr ⟨cout, hto, rfl⟩
        · simp only [List.mem_cons, List.mem_singleton] at hop
          rcases hop with rfl | rfl | hop
          · simp only [opPaths, List.mem_singleton] at hq
            subst hq
            exact Or.inr ⟨cout, hto, rfl⟩
          · simp only [opPaths, List.mem_cons] at hq
            rcases hq with rfl | hq
            · exact Or.inl hto
            · have hq2 := List.mem_filterMap.mp hq
              rcases hq2 with ⟨a, ha, hf⟩
              rcases List.mem_map.mp ha with ⟨b, hb, rfl⟩
              by_cases hpe : String.mk b = ""
              · simp [hpe] at hf
              · rw [if_neg hpe] at hf
                exact Or.inl (isPathSafe_under _ _ _ _ hf)
          · simp at hop
  | extract p d =>
    by_cases hp : p = ""
    · simp [serverStep, handleExtract, hp]
    · cases harch : isPathSafe cwd root p with
      | none => simp [serverStep, handleExtract, hp, harch]
      | some carch =>
        cases hdest : isPathSafe cwd root (extractDest p d) with
        | none => simp [serverStep, handleExtract, hp, harch, hdest]
        | some cdest =>
          have hta := isPathSafe_under _ _ _ _ harch
          have htd := isPathSafe_under _ _ _ _ hdest
          have key : (serverStep cwd root fs (.extract p d)).1 =
              [FsOp.mkdirAll cdest, FsOp.archiveExtract carch cdest] ∨
              (serverStep cwd root fs (.extract p d)).1 =
                [FsOp.mkdirAll cdest] := by
            simp only [serverStep, handleExtract, harch, hdest]
            rw [if_neg hp]
            split
            · exact Or.inl rfl
            · exact Or.inr rfl
          intro op hop q hq
          rcases key with hk | hk <;> rw [hk] at hop
          · simp at hop
            rcases hop with rfl | rfl
            · simp [opPaths] at hq
              subst hq
              exact Or.inl htd
            · simp [opPaths] at hq
              rcases hq with rfl | rfl
              · exact Or.inl hta
              · exact Or.inl htd
          · simp at hop
            subst hop
            simp [opPaths] at hq
            subst hq
            exact Or.inl htd
  | checksum p =>
    cases hs : isPathSafe cwd root p with
    | none => simp [serverStep, handleChecksum, hs]
    | some cp =>
      have ht := isPathSafe_under _ _ _ _ hs
      intro op hop q hq
      simp only [serverStep, handleChecksum, hs] at hop
      simp at hop
      subst hop
      simp [opPaths] at hq
      subst hq
      exact Or.inl ht

end SKFM

/-- C1 (amended): every server operation resolves its request path
through the safety check before any filesystem call; a path whose
resolution fails the check is rejected with an error and with no
filesystem call at all (hence no mutation); and every path a handler
does hand to the filesystem resolves to the configured root or below it,
except only the parent-directory preludes (mkdir-parents before upload,
edit-save and compress output), which are the parent of such an in-root
target.  Request paths containing dot-dot segments are, however,
lexically normalized into the root rather than rejected. -/
theorem path_safety_resolved :
    (∀ cwd root rp full, SKFM.isPathSafe cwd root rp = some full →
      SKFM.resolvedUnderRoot cwd root full = true) ∧
    (∀ (cwd root : String) (fs : SKFM.FsView) (req : SKFM.Request),
      SKFM.requestPathUnsafe cwd root req →
      (SKFM.serverStep cwd root fs req).1 = [] ∧
        ((SKFM.serverStep cwd root fs req).2).isSome = true) ∧
    (∀ (cwd root : String) (fs : SKFM.FsView) (req : SKFM.Request),
      ∀ op ∈ (SKFM.serverStep cwd root fs req).1,
        ∀ q ∈ SKFM.opPaths op,
          SKFM.resolvedUnderRoot cwd root q = true ∨
            ∃ t, SKFM.resolvedUnderRoot cwd root t = true ∧
              q = SKFM.filepathDir t) :=
  ⟨fun cwd root rp full h => SKFM.isPathSafe_under cwd root rp full h,
    fun cwd root fs req h => SKFM.unsafe_rejected cwd root fs req h,
    fun cwd root fs req => SKFM.serverStep_ops_under cwd root fs req⟩

/-- Witness for C1 at concrete inputs: a request under root /srv
resolves under the root, and a delete request against an empty root
(which the check resolves outside the working directory) is rejected
with no filesystem call. -/
theorem path_safety_resolved_witness :
    SKFM.resolvedUnderRoot "/" "/srv" "/srv/a/b" = true ∧
    (SKFM.serverStep "/home" ""
        ⟨fun _ => true, fun _ => false, fun _ => 0⟩
        (.delete "x")).1 = [] ∧
      ((SKFM.serverStep "/home" ""
        ⟨fun _ => true, fun _ => false, fun _ => 0⟩
        (.delete "x")).2).isSome = true :=
  ⟨path_safety_resolved.1 "/" "/srv" "a/b" "/srv/a/b" (by decide),
    path_safety_resolved.2.1 "/home" ""
      ⟨fun _ => true, fun _ => false, fun _ => 0⟩ (.delete "x")
      (by decide : SKFM.isPathSafe "/home" "" "x" = none)⟩

/-- Counterexample to C1 as stated: the request path ../etc/passwd
contains a dot-dot segment, yet the delete operation does not reject it;
the safety check lexically renormalizes it to /srv/etc/passwd inside the
root and the handler proceeds to stat and remove that file. -/
theorem path_traversal_not_rejected :
    SKFM.serverStep "/" "/srv"
        ⟨fun _ => true, fun _ => false, fun _ => 0⟩
        (.delete "../etc/passwd") =
      ([.statF "/srv/etc/passwd", .removeF "/srv/etc/passwd"], none) := by
  decide
